/-
Verification of `schwarzschild_radius.py` (AstroMe repository).

The script is pure threshold/selection logic over real-number arithmetic:
we embed it shallowly over `ℚ` (every constant in the program is a decimal
literal, hence rational; real arithmetic is modelled exactly).  Python
loops that carry an accumulator are embedded as `List.foldl`, list
comprehensions as `filter`/`map`, and `list.sort` (a stable sort) as
`List.insertionSort` (also stable).  Python's `max(...)` over a possibly
empty sequence raises `ValueError`; we model it with `List.max?`, so a
`none` result marks the exception path.  f-string float formatting
(`.2f`, `.1f`, `.0f`, `.3g`) is modelled by explicit decimal formatters
(round-half-even, as CPython formats its binary floats; every value the
claims format is exactly representable, so the modes agree).
-/
import Mathlib

namespace AstroMe

/-! ### Physical constants (SI), from the top of `schwarzschild_radius.py` -/

/-- `G = 6.67430e-11` (gravitational constant, m³ kg⁻¹ s⁻²). -/
def G : ℚ := 6.67430e-11

/-- `c = 299_792_458` (speed of light, m/s). -/
def c : ℚ := 299792458

/-- `M_sun_kg = 1.989e30`. -/
def M_sun_kg : ℚ := 1.989e30

/-- `R_sun_schwarzschild_km = 2 * G * M_sun_kg / (c ** 2) / 1000`. -/
def R_sun_schwarzschild_km : ℚ := 2 * G * M_sun_kg / (c ^ 2) / 1000

/-- `AU_KM = 149_597_870.7`. -/
def AU_KM : ℚ := 149597870.7

/-- `ORBITS_KM`: orbital radii (semi-major axis) in km, in the insertion
order of the Python dict (which iteration preserves). -/
def ORBITS_KM : List (String × ℚ) :=
  [("Mercury", 0.387 * AU_KM),
   ("Venus", 0.723 * AU_KM),
   ("Earth", 1.0 * AU_KM),
   ("Mars", 1.524 * AU_KM),
   ("Ceres", 2.766 * AU_KM),
   ("Jupiter", 5.203 * AU_KM),
   ("Saturn", 9.537 * AU_KM),
   ("Uranus", 19.19 * AU_KM),
   ("Neptune", 30.07 * AU_KM),
   ("Pluto", 39.48 * AU_KM),
   ("Makemake", 45.43 * AU_KM),
   ("Eris", 67.86 * AU_KM)]

/-- Physical radii in km. -/
def SUN_RADIUS_KM : ℚ := 695700
def JUPITER_RADIUS_KM : ℚ := 69911
def EARTH_RADIUS_KM : ℚ := 6371
def MOON_RADIUS_KM : ℚ := 1738
def PLUTO_RADIUS_KM : ℚ := 1188
def CERES_RADIUS_KM : ℚ := 476
def VESTA_RADIUS_KM : ℚ := 262
def ENCELADUS_RADIUS_KM : ℚ := 252
def EROS_RADIUS_KM : ℚ := 8.4
def HALLEY_NUCLEUS_KM : ℚ := 11
def NEUTRON_STAR_RADIUS_KM : ℚ := 10

/-- `SUN_MIN_FRACTION = 0.1`. -/
def SUN_MIN_FRACTION : ℚ := 0.1

/-- `HALF_MERCURY_ORBIT_KM = 0.5 * ORBITS_KM["Mercury"]`. -/
def HALF_MERCURY_ORBIT_KM : ℚ := 0.5 * (0.387 * AU_KM)

/-- `AU_SWITCH_KM = 0.05 * AU_KM`. -/
def AU_SWITCH_KM : ℚ := 0.05 * AU_KM

/-- `schwarzschild_radius_km(mass_solar)`. -/
def schwarzschild_radius_km (mass_solar : ℚ) : ℚ :=
  R_sun_schwarzschild_km * mass_solar

/-! ### Decimal formatting (models CPython f-string formatting of floats) -/

/-- Round to the nearest integer, ties to even (IEEE/CPython rounding). -/
def roundHalfEven (q : ℚ) : ℤ :=
  let n := ⌊q⌋
  let f := q - n
  if 1/2 < f then n + 1
  else if f < 1/2 then n
  else if n % 2 = 0 then n else n + 1

/-- Fixed-point rendering `f"{q:.pf}"`: round-half-even at `p` decimals,
always show exactly `p` fractional digits (none, and no point, if `p = 0`). -/
def formatFixed (q : ℚ) (p : ℕ) : String :=
  let m := roundHalfEven (q * 10 ^ p)
  let sign := if m < 0 then "-" else ""
  let digits := Nat.toDigits 10 m.natAbs
  let ds := List.replicate (p + 1 - digits.length) '0' ++ digits
  let intPart := ds.take (ds.length - p)
  let fracPart := ds.drop (ds.length - p)
  if p = 0 then sign ++ String.mk intPart
  else sign ++ String.mk intPart ++ "." ++ String.mk fracPart

/-- Drop trailing `'0'` characters. -/
def stripTrailingZeros (l : List Char) : List Char :=
  (l.reverse.dropWhile (fun ch => ch = '0')).reverse

/-- Decimal exponent `e` with `10 ^ e ≤ q < 10 ^ (e + 1)`, for `q > 0`,
computed from decimal digit counts of `⌊q⌋` resp. `⌈q⁻¹⌉`. -/
def decExp (q : ℚ) : ℤ :=
  if 1 ≤ q then ((Nat.toDigits 10 ⌊q⌋.toNat).length : ℤ) - 1
  else
    let d := (Nat.toDigits 10 ⌈q⁻¹⌉.toNat).length
    if q⁻¹ ≤ 10 ^ (d - 1) then -((d : ℤ) - 1) else -(d : ℤ)

/-- `f"{q:.3g}"` for `q > 0`: round to 3 significant digits; fixed notation
with trailing zeros stripped when the exponent is in `[-4, 3)`, otherwise
scientific notation with a two-digit exponent. -/
def formatG3Pos (q : ℚ) : String :=
  let e0 := decExp q
  let m0 := roundHalfEven (q * (10 : ℚ) ^ (2 - e0))
  let m := if m0 = 1000 then (100 : ℤ) else m0
  let e := if m0 = 1000 then e0 + 1 else e0
  let digits := Nat.toDigits 10 m.toNat
  if -4 ≤ e ∧ e < 3 then
    if 0 ≤ e then
      let k := e.toNat + 1
      let intPart := digits.take k
      let fracPart := stripTrailingZeros (digits.drop k)
      if fracPart = [] then String.mk intPart
      else String.mk intPart ++ "." ++ String.mk fracPart
    else
      let fracPart := stripTrailingZeros (List.replicate (-(e + 1)).toNat '0' ++ digits)
      "0." ++ String.mk fracPart
  else
    let fracPart := stripTrailingZeros (digits.drop 1)
    let mant := if fracPart = [] then String.mk (digits.take 1)
                else String.mk (digits.take 1) ++ "." ++ String.mk fracPart
    let a := e.natAbs
    mant ++ "e" ++ (if e < 0 then "-" else "+") ++
      (if a < 10 then "0" ++ toString a else toString a)

/-- `f"{q:.3g}"`. -/
def formatG3 (q : ℚ) : String :=
  if q = 0 then "0"
  else if q < 0 then "-" ++ formatG3Pos (-q)
  else formatG3Pos q

/-- `_format_dist(r_km, use_au)`. -/
def formatDist (r_km : ℚ) (use_au : Bool) : String :=
  if use_au then formatG3 (r_km / AU_KM) ++ " AU"
  else if r_km ≥ 1e6 then formatFixed (r_km / 1e6) 2 ++ " Mkm"
  else if r_km ≥ 1000 then formatFixed (r_km / 1000) 1 ++ "k km"
  else formatFixed r_km 0 ++ " km"

/-! ### Unit / render-mode selection (from `main`) -/

/-- `scale = AU_KM if use_au else 1.0`. -/
def scaleOf (use_au : Bool) : ℚ := if use_au then AU_KM else 1

/-- `use_au = R_s_km > AU_SWITCH_KM` (line 232 of `main`). -/
def useAu (R_s_km : ℚ) : Bool := AU_SWITCH_KM < R_s_km

/-- The three render modes of the spec's `DisplayMode` enum. -/
inductive RenderMode
  | largeScale
  | smallNear
  | smallFar
  deriving DecidableEq

/-- Mode dispatch: `main` picks `plot_large_black_hole` when
`R_s_km >= HALF_MERCURY_ORBIT_KM`, else `plot_small_black_hole`, which
branches on `R_s_km < SUN_MIN_FRACTION * SUN_RADIUS_KM`. -/
def renderMode (R_s_km : ℚ) : RenderMode :=
  if HALF_MERCURY_ORBIT_KM ≤ R_s_km then .largeScale
  else if R_s_km < SUN_MIN_FRACTION * SUN_RADIUS_KM then .smallNear
  else .smallFar

/-! ### Large-scale selector (`plot_large_black_hole`) -/

/-- The `for` loop over the orbit dict keeping the last orbit with
`r_scaled < R_s`, embedded as a `foldl` over `ORBITS_KM`. -/
def largeSmaller (R_s_km : ℚ) (u : Bool) : Option (String × ℚ) :=
  ORBITS_KM.foldl
    (fun acc p =>
      if p.2 / scaleOf u < R_s_km / scaleOf u then some (p.1, p.2 / scaleOf u) else acc)
    none

/-- `if smaller_r is None and not use_au: smaller = Sun radius`. -/
def largeSmallerFB (R_s_km : ℚ) (u : Bool) : Option (String × ℚ) :=
  match largeSmaller R_s_km u with
  | some p => some p
  | none => if u then none else some ("Sun (radius)", SUN_RADIUS_KM / scaleOf u)

/-- Sort key `lambda x: x[1]`, ascending. -/
def byRadAsc (a b : String × ℚ) : Prop := a.2 ≤ b.2

/-- Sort key `lambda x: x[1]` with `reverse=True`, descending. -/
def byRadDesc (a b : String × ℚ) : Prop := b.2 ≤ a.2

instance : DecidableRel byRadAsc := fun a b => inferInstanceAs (Decidable (a.2 ≤ b.2))
instance : DecidableRel byRadDesc := fun a b => inferInstanceAs (Decidable (b.2 ≤ a.2))
instance : IsTotal (String × ℚ) byRadAsc := ⟨fun a b => le_total a.2 b.2⟩
instance : IsTrans (String × ℚ) byRadAsc := ⟨fun _ _ _ h h' => le_trans h h'⟩
instance : IsTotal (String × ℚ) byRadDesc := ⟨fun a b => le_total b.2 a.2⟩
instance : IsTrans (String × ℚ) byRadDesc := ⟨fun _ _ _ h h' => le_trans h' h⟩

/-- The `larger_list` of `plot_large_black_hole`: orbits with
`r_scaled > R_s`, sorted ascending by radius, first two, with the
synthetic `1.2 × R_s` fallback when empty and `R_s > 0`. -/
def largeLarger (R_s_km : ℚ) (u : Bool) : List (String × ℚ) :=
  let filtered :=
    (ORBITS_KM.map (fun p => (p.1, p.2 / scaleOf u))).filter
      (fun p => R_s_km / scaleOf u < p.2)
  let top := (List.insertionSort byRadAsc filtered).take 2
  if top = [] ∧ 0 < R_s_km / scaleOf u
  then [("1.2 × R_s (scale)", R_s_km / scaleOf u * 1.2)]
  else top

/-- `max_plot_r` / `lim` of `plot_large_black_hole` (axis half-width, in
plot units). -/
def largeLim (R_s_km : ℚ) (u : Bool) : ℚ :=
  let m0 := R_s_km / scaleOf u * 1.2
  let m1 := match largeSmallerFB R_s_km u with
    | none => m0
    | some p => max m0 (p.2 * 1.1)
  let m2 := (largeLarger R_s_km u).foldl (fun m p => max m (p.2 * 1.1)) m1
  m2 * 1.05

/-- The largest radius actually drawn by `plot_large_black_hole`: the
event horizon together with every selected reference radius (plot units). -/
def largeMaxDrawn (R_s_km : ℚ) (u : Bool) : ℚ :=
  let m0 := R_s_km / scaleOf u
  let m1 := match largeSmallerFB R_s_km u with
    | none => m0
    | some p => max m0 p.2
  (largeLarger R_s_km u).foldl (fun m p => max m p.2) m1

/-! ### Small-scale selector (`plot_small_black_hole`) -/

/-- Reference list of the `R_s_km < 0.1 * Sun` branch, in source order. -/
def smallRefsNear : List (String × ℚ) :=
  [("Eros (asteroid)", EROS_RADIUS_KM),
   ("Neutron star (typical radius)", NEUTRON_STAR_RADIUS_KM),
   ("Enceladus (moon of Saturn)", ENCELADUS_RADIUS_KM),
   ("Vesta (asteroid)", VESTA_RADIUS_KM),
   ("Ceres (dwarf planet)", CERES_RADIUS_KM),
   ("Moon (Earth's moon)", MOON_RADIUS_KM),
   ("Earth (radius)", EARTH_RADIUS_KM)]

/-- Reference list of the other branch; the code appends the Sun entry to
the literal list. -/
def smallRefsFar : List (String × ℚ) :=
  [("Neutron star (typical radius)", NEUTRON_STAR_RADIUS_KM),
   ("Halley's comet nucleus", HALLEY_NUCLEUS_KM),
   ("Vesta (asteroid)", VESTA_RADIUS_KM),
   ("Ceres (dwarf planet)", CERES_RADIUS_KM),
   ("Pluto (dwarf planet)", PLUTO_RADIUS_KM),
   ("Earth (radius)", EARTH_RADIUS_KM),
   ("Jupiter (radius)", JUPITER_RADIUS_KM)] ++
  [("Sun (radius)", SUN_RADIUS_KM)]

/-- Which reference list `plot_small_black_hole` uses. -/
def smallRefs (R_s_km : ℚ) : List (String × ℚ) :=
  if R_s_km < SUN_MIN_FRACTION * SUN_RADIUS_KM then smallRefsNear else smallRefsFar

/-- `smaller = [(name, r/scale) for name, r in refs if r < R_s_km]`,
sorted descending by the stored (scaled) radius. -/
def smallSmaller (R_s_km : ℚ) (u : Bool) : List (String × ℚ) :=
  List.insertionSort byRadDesc
    (((smallRefs R_s_km).filter (fun p => p.2 < R_s_km)).map
      (fun p => (p.1, p.2 / scaleOf u)))

/-- `larger = [(name, r/scale) for name, r in refs if r > R_s_km]`,
sorted ascending by the stored (scaled) radius. -/
def smallLarger (R_s_km : ℚ) (u : Bool) : List (String × ℚ) :=
  List.insertionSort byRadAsc
    (((smallRefs R_s_km).filter (fun p => R_s_km < p.2)).map
      (fun p => (p.1, p.2 / scaleOf u)))

/-- `to_draw = smaller[:1] + larger[:2]`. -/
def smallToDraw (R_s_km : ℚ) (u : Bool) : List (String × ℚ) :=
  (smallSmaller R_s_km u).take 1 ++ (smallLarger R_s_km u).take 2

/-- `max_drawn_km = max(r_plot * scale for _, r_plot in to_draw)`:
Python's `max` raises `ValueError` on an empty sequence, modelled as
`none`. -/
def smallMaxDrawnKm (R_s_km : ℚ) (u : Bool) : Option ℚ :=
  ((smallToDraw R_s_km u).map (fun p => p.2 * scaleOf u)).max?

/-- `lim = max(R_s_km, max_drawn_km) * 1.25 / scale` (axis half-width in
plot units); `none` on the exception path of `max`. -/
def smallLim (R_s_km : ℚ) (u : Bool) : Option ℚ :=
  (smallMaxDrawnKm R_s_km u).map (fun m => max R_s_km m * 1.25 / scaleOf u)

/-- The largest radius actually drawn by `plot_small_black_hole` (plot
units): horizon and selected references; `none` when nothing is selected. -/
def smallMaxDrawnPlot (R_s_km : ℚ) (u : Bool) : Option ℚ :=
  ((smallToDraw R_s_km u).map (fun p => p.2)).max?.map
    (fun m => max (R_s_km / scaleOf u) m)

/-! ### Generic lemmas about the selection combinators -/

/-- Strict ordering of catalog entries by radius. -/
def radLt (a b : String × ℚ) : Prop := a.2 < b.2

instance : DecidableRel radLt := fun a b => inferInstanceAs (Decidable (a.2 < b.2))

/-- One step of the last-orbit-below loop. -/
def selStep (T : ℚ) (acc : Option (String × ℚ)) (p : String × ℚ) : Option (String × ℚ) :=
  if p.2 < T then some p else acc

theorem scaleOf_pos (u : Bool) : 0 < scaleOf u := by
  cases u <;> norm_num [scaleOf, AU_KM]

theorem scaleOf_ne_zero (u : Bool) : scaleOf u ≠ 0 :=
  ne_of_gt (scaleOf_pos u)

theorem selFold_acc_some {T : ℚ} :
    ∀ (l : List (String × ℚ)) (y : String × ℚ), ∃ z, l.foldl (selStep T) (some y) = some z := by
  intro l
  induction l with
  | nil => exact fun y => ⟨y, rfl⟩
  | cons x t ih =>
    intro y
    simp only [List.foldl_cons, selStep]
    by_cases hx : x.2 < T
    · rw [if_pos hx]; exact ih x
    · rw [if_neg hx]; exact ih y

theorem selFold_mem {T : ℚ} :
    ∀ (l : List (String × ℚ)) (acc : Option (String × ℚ)),
      l.foldl (selStep T) acc = acc ∨ ∃ p ∈ l, p.2 < T ∧ l.foldl (selStep T) acc = some p := by
  intro l
  induction l with
  | nil => exact fun acc => Or.inl rfl
  | cons x t ih =>
    intro acc
    simp only [List.foldl_cons]
    rcases ih (selStep T acc x) with h | ⟨p, hp, hlt, hres⟩
    · rw [h]
      by_cases hx : x.2 < T
      · exact Or.inr ⟨x, List.mem_cons_self x t, hx, by simp [selStep, hx]⟩
      · refine Or.inl ?_
        simp [selStep, hx]
    · exact Or.inr ⟨p, List.mem_cons_of_mem x hp, hlt, hres⟩

theorem selFold_none {T : ℚ} :
    ∀ (l : List (String × ℚ)), (∀ p ∈ l, ¬ p.2 < T) →
      ∀ acc, l.foldl (selStep T) acc = acc := by
  intro l
  induction l with
  | nil => exact fun _ _ => rfl
  | cons x t ih =>
    intro h acc
    simp only [List.foldl_cons, selStep, if_neg (h x (List.mem_cons_self x t))]
    exact ih (fun p hp => h p (List.mem_cons_of_mem x hp)) acc

theorem selFold_isSome {T : ℚ} :
    ∀ (l : List (String × ℚ)) (q : String × ℚ), q ∈ l → q.2 < T →
      ∀ acc, ∃ z, l.foldl (selStep T) acc = some z := by
  intro l
  induction l with
  | nil => intro q hq; exact absurd hq (List.not_mem_nil q)
  | cons x t ih =>
    intro q hq hlt acc
    simp only [List.foldl_cons]
    rcases List.mem_cons.1 hq with rfl | hq'
    · simp only [selStep, if_pos hlt]
      exact selFold_acc_some t q
    · exact ih q hq' hlt _

theorem selFold_max {T : ℚ} :
    ∀ (l : List (String × ℚ)), l.Pairwise radLt →
      ∀ p ∈ l, p.2 < T → (∀ q ∈ l, q.2 < T → q.2 ≤ p.2) →
        ∀ acc, l.foldl (selStep T) acc = some p := by
  intro l
  induction l with
  | nil => intro _ p hp; exact absurd hp (List.not_mem_nil p)
  | cons x t ih =>
    intro hpair p hp hlt hmax acc
    simp only [List.foldl_cons]
    by_cases hpt : p ∈ t
    · exact ih hpair.of_cons p hpt hlt
        (fun q hq hqlt => hmax q (List.mem_cons_of_mem x hq) hqlt) _
    · have hpx : p = x := by
        rcases List.mem_cons.1 hp with h | h
        · exact h
        · exact absurd h hpt
      subst hpx
      have hnone : ∀ q ∈ t, ¬ q.2 < T := by
        intro q hq hqlt
        have h1 : q.2 ≤ p.2 := hmax q (List.mem_cons_of_mem p hq) hqlt
        have h2 : p.2 < q.2 := (List.pairwise_cons.1 hpair).1 q hq
        exact absurd h1 (not_le.2 h2)
      rw [selFold_none t hnone]
      simp [selStep, if_pos hlt]

theorem foldl_max_init_le {α : Type} (g : α → ℚ) :
    ∀ (l : List α) (init : ℚ),
      init ≤ l.foldl (fun m p => max m (g p)) init := by
  intro l
  induction l with
  | nil => exact fun _ => le_refl _
  | cons x t ih =>
    intro init
    exact le_trans (le_max_left init (g x)) (ih _)

theorem foldl_max_le_of {α : Type} (g : α → ℚ) :
    ∀ (l : List α) (init b : ℚ), init ≤ b → (∀ p ∈ l, g p ≤ b) →
      l.foldl (fun m p => max m (g p)) init ≤ b := by
  intro l
  induction l with
  | nil => exact fun _ b h _ => h
  | cons x t ih =>
    intro init b hinit hall
    exact ih _ b (max_le hinit (hall x (List.mem_cons_self x t)))
      (fun p hp => hall p (List.mem_cons_of_mem x hp))

theorem foldl_max_mem_le {α : Type} (g : α → ℚ) :
    ∀ (l : List α) (init : ℚ) (p : α), p ∈ l →
      g p ≤ l.foldl (fun m p => max m (g p)) init := by
  intro l
  induction l with
  | nil => intro _ p hp; exact absurd hp (List.not_mem_nil p)
  | cons x t ih =>
    intro init p hp
    rcases List.mem_cons.1 hp with rfl | hp'
    · exact le_trans (le_max_right init (g p)) (foldl_max_init_le g t _)
    · exact ih _ p hp'

theorem selFold_max_of_some {T : ℚ} :
    ∀ (l : List (String × ℚ)), l.Pairwise radLt →
      ∀ p : String × ℚ, l.foldl (selStep T) none = some p →
        ∀ q ∈ l, q.2 < T → q.2 ≤ p.2 := by
  intro l
  induction l using List.reverseRecOn with
  | nil => intro _ p h; simp at h
  | append_singleton l x ih =>
    intro hl p h
    rw [List.foldl_append] at h
    simp only [List.foldl_cons, List.foldl_nil] at h
    rcases List.pairwise_append.1 hl with ⟨hl1, _, hcross⟩
    by_cases hx : x.2 < T
    · have hp : x = p := by simpa [selStep, hx] using h
      intro q hq _
      rcases List.mem_append.1 hq with h' | h'
      · exact le_of_lt (hp ▸ hcross q h' x (List.mem_singleton_self x))
      · rw [List.mem_singleton.1 h', hp]
    · have h' : l.foldl (selStep T) none = some p := by
        simpa [selStep, hx] using h
      intro q hq hqT
      rcases List.mem_append.1 hq with hm | hm
      · exact ih hl1 p h' q hm hqT
      · rw [List.mem_singleton.1 hm] at hqT
        exact absurd hqT hx

/-! ### Facts about the embedded selectors -/

theorem div_scale_lt_iff (u : Bool) {a b : ℚ} :
    a / scaleOf u < b / scaleOf u ↔ a < b :=
  div_lt_div_iff_of_pos_right (scaleOf_pos u)

theorem div_scale_le_iff (u : Bool) {a b : ℚ} :
    a / scaleOf u ≤ b / scaleOf u ↔ a ≤ b :=
  div_le_div_iff_of_pos_right (scaleOf_pos u)

theorem largeSmaller_eq (R : ℚ) (u : Bool) :
    largeSmaller R u =
      (ORBITS_KM.map (fun p => (p.1, p.2 / scaleOf u))).foldl (selStep (R / scaleOf u)) none := by
  rw [List.foldl_map]
  rfl

theorem ORBITS_pairwise : ORBITS_KM.Pairwise radLt := by
  norm_num [ORBITS_KM, AU_KM, List.pairwise_cons, radLt]

theorem ORBITS_pos : ∀ q ∈ ORBITS_KM, 0 < q.2 := by
  norm_num [ORBITS_KM, AU_KM]

theorem ORBITS_not_sun : ∀ q ∈ ORBITS_KM, q.1 ≠ "Sun (radius)" := by
  norm_num [ORBITS_KM]
  decide

theorem mappedOrbits_pairwise (u : Bool) :
    (ORBITS_KM.map (fun p => (p.1, p.2 / scaleOf u))).Pairwise radLt := by
  rw [List.pairwise_map]
  exact ORBITS_pairwise.imp (fun h => by simpa [radLt] using (div_scale_lt_iff u).2 h)

theorem smallSmaller_sound {R : ℚ} {u : Bool} {p : String × ℚ} (hp : p ∈ smallSmaller R u) :
    ∃ q ∈ smallRefs R, q.2 < R ∧ p = (q.1, q.2 / scaleOf u) := by
  rcases List.mem_map.1 ((List.mem_insertionSort _).1 hp) with ⟨q, hq, rfl⟩
  have hmem := List.mem_filter.1 hq
  exact ⟨q, hmem.1, by simpa using hmem.2, rfl⟩

theorem smallSmaller_complete {R : ℚ} (u : Bool) {q : String × ℚ}
    (hq : q ∈ smallRefs R) (h : q.2 < R) :
    (q.1, q.2 / scaleOf u) ∈ smallSmaller R u := by
  exact (List.mem_insertionSort _).2
    (List.mem_map_of_mem _ (List.mem_filter.2 ⟨hq, by simpa using h⟩))

theorem smallLarger_sound {R : ℚ} {u : Bool} {p : String × ℚ} (hp : p ∈ smallLarger R u) :
    ∃ q ∈ smallRefs R, R < q.2 ∧ p = (q.1, q.2 / scaleOf u) := by
  rcases List.mem_map.1 ((List.mem_insertionSort _).1 hp) with ⟨q, hq, rfl⟩
  have hmem := List.mem_filter.1 hq
  exact ⟨q, hmem.1, by simpa using hmem.2, rfl⟩

theorem smallLarger_complete {R : ℚ} (u : Bool) {q : String × ℚ}
    (hq : q ∈ smallRefs R) (h : R < q.2) :
    (q.1, q.2 / scaleOf u) ∈ smallLarger R u := by
  exact (List.mem_insertionSort _).2
    (List.mem_map_of_mem _ (List.mem_filter.2 ⟨hq, by simpa using h⟩))

theorem smallSmaller_sorted (R : ℚ) (u : Bool) : (smallSmaller R u).Sorted byRadDesc :=
  List.sorted_insertionSort byRadDesc _

theorem smallLarger_sorted (R : ℚ) (u : Bool) : (smallLarger R u).Sorted byRadAsc :=
  List.sorted_insertionSort byRadAsc _

theorem mem_take_one {α : Type} {l : List α} {p : α} (hp : p ∈ l.take 1) :
    ∃ t, l = p :: t := by
  cases l with
  | nil => simp at hp
  | cons a t =>
    simp only [List.take_succ_cons, List.take_zero, List.mem_singleton] at hp
    exact ⟨t, by rw [hp]⟩

theorem sorted_take_rest {α : Type} {r : α → α → Prop} {l : List α} (hs : l.Pairwise r)
    (n : ℕ) : ∀ p ∈ l.take n, ∀ q ∈ l, q ∉ l.take n → r p q := by
  have h := hs
  rw [← List.take_append_drop n l] at h
  rcases List.pairwise_append.1 h with ⟨_, _, hcross⟩
  intro p hp q hq hqn
  have hq' : q ∈ l.take n ++ l.drop n := by rw [List.take_append_drop]; exact hq
  rcases List.mem_append.1 hq' with h' | h'
  · exact absurd h' hqn
  · exact hcross p hp q h'

/-! ### The claims -/

/-- Claim C1: `schwarzschild_radius_km(mass_solar)` returns
`2*G*M_sun/c^2/1000` multiplied by `mass_solar`, and for `mass_solar = 1`
the value is approximately 2.95 km within 2-decimal formatting precision. -/
theorem claim_C1 :
    (∀ m : ℚ, schwarzschild_radius_km m = 2 * G * M_sun_kg / c ^ 2 / 1000 * m) ∧
    formatFixed (schwarzschild_radius_km 1) 2 = "2.95" ∧
    2.945 ≤ schwarzschild_radius_km 1 ∧ schwarzschild_radius_km 1 < 2.955 := by
  refine ⟨fun m => rfl, ?_, ?_, ?_⟩
  · have h : roundHalfEven (schwarzschild_radius_km 1 * 10 ^ 2) = 295 := by
      norm_num [roundHalfEven, schwarzschild_radius_km, R_sun_schwarzschild_km, G, M_sun_kg, c]
    simp only [formatFixed, h]
    decide
  · norm_num [schwarzschild_radius_km, R_sun_schwarzschild_km, G, M_sun_kg, c]
  · norm_num [schwarzschild_radius_km, R_sun_schwarzschild_km, G, M_sun_kg, c]

/-- Claim C2: the unit flag selects AU exactly when the radius strictly
exceeds `0.05` AU in km; at exactly the threshold it stays in km mode, and
any radius strictly above selects AU. -/
theorem claim_C2 :
    AU_SWITCH_KM = 0.05 * AU_KM ∧
    (∀ R : ℚ, useAu R = true ↔ AU_SWITCH_KM < R) ∧
    useAu AU_SWITCH_KM = false ∧
    (∀ ε : ℚ, 0 < ε → useAu (AU_SWITCH_KM + ε) = true) := by
  refine ⟨rfl, fun R => by simp [useAu], by simp [useAu], fun ε hε => ?_⟩
  simp only [useAu, decide_eq_true_eq]
  linarith

/-- Witness for C2 at `ε = 1`. -/
theorem claim_C2_witness : useAu (AU_SWITCH_KM + 1) = true :=
  claim_C2.2.2.2 1 (by norm_num)

/-- Claim C3: the renderer uses large-scale exactly when the radius is at
least half of Mercury's orbital radius (the boundary selects large-scale);
otherwise small-scale, which picks the near-Sun reference set exactly when
the radius is strictly below 10 percent of the Sun's physical radius. -/
theorem claim_C3 :
    (∀ R : ℚ,
      (renderMode R = RenderMode.largeScale ↔ HALF_MERCURY_ORBIT_KM ≤ R) ∧
      (renderMode R = RenderMode.smallNear ↔
        R < HALF_MERCURY_ORBIT_KM ∧ R < SUN_MIN_FRACTION * SUN_RADIUS_KM) ∧
      (renderMode R = RenderMode.smallFar ↔
        SUN_MIN_FRACTION * SUN_RADIUS_KM ≤ R ∧ R < HALF_MERCURY_ORBIT_KM) ∧
      (smallRefs R = smallRefsNear ↔ R < SUN_MIN_FRACTION * SUN_RADIUS_KM)) ∧
    renderMode HALF_MERCURY_ORBIT_KM = RenderMode.largeScale := by
  have hne : smallRefsFar ≠ smallRefsNear := by
    intro h
    simpa [smallRefsNear, smallRefsFar] using congrArg List.length h
  constructor
  · intro R
    unfold renderMode smallRefs
    split_ifs with h1 h2 <;> simp_all
  · simp [renderMode]

/-- Claim C6: the distance formatter uses AU with 3 significant figures in
AU mode; otherwise millions of km with 2 decimals above `10^6` km,
thousands of km with 1 decimal above `10^3` km, else whole km — with the
four concrete renderings the spec lists. -/
theorem claim_C6 :
    (∀ r : ℚ, formatDist r true = formatG3 (r / AU_KM) ++ " AU") ∧
    (∀ r : ℚ, 1e6 ≤ r → formatDist r false = formatFixed (r / 1e6) 2 ++ " Mkm") ∧
    (∀ r : ℚ, 1000 ≤ r → r < 1e6 → formatDist r false = formatFixed (r / 1000) 1 ++ "k km") ∧
    (∀ r : ℚ, r < 1000 → formatDist r false = formatFixed r 0 ++ " km") ∧
    formatDist 58000000 false = "58.00 Mkm" ∧
    formatDist 5000 false = "5.0k km" ∧
    formatDist 500 false = "500 km" ∧
    formatDist (1.5 * AU_KM) true = "1.5 AU" := by
  have hfalse : ¬ ((false : Bool) = true) := by decide
  refine ⟨fun r => rfl, ?_, ?_, ?_, ?_, ?_, ?_, ?_⟩
  · intro r h
    simp only [formatDist, if_neg hfalse]
    rw [if_pos h]
  · intro r h1 h2
    simp only [formatDist, if_neg hfalse]
    rw [if_neg (not_le.2 h2), if_pos h1]
  · intro r h
    simp only [formatDist, if_neg hfalse]
    rw [if_neg (not_le.2 (by linarith : r < 1e6)), if_neg (not_le.2 h)]
  · simp only [formatDist, if_neg hfalse]
    rw [if_pos (by norm_num : (58000000 : ℚ) ≥ 1e6),
      (by norm_num : (58000000 : ℚ) / 1e6 = 58)]
    have h : roundHalfEven ((58 : ℚ) * 10 ^ 2) = 5800 := by norm_num [roundHalfEven]
    simp only [formatFixed, h]
    decide
  · simp only [formatDist, if_neg hfalse]
    rw [if_neg (by norm_num : ¬ ((5000 : ℚ) ≥ 1e6)),
      if_pos (by norm_num : (5000 : ℚ) ≥ 1000),
      (by norm_num : (5000 : ℚ) / 1000 = 5)]
    have h : roundHalfEven ((5 : ℚ) * 10 ^ 1) = 50 := by norm_num [roundHalfEven]
    simp only [formatFixed, h]
    decide
  · simp only [formatDist, if_neg hfalse]
    rw [if_neg (by norm_num : ¬ ((500 : ℚ) ≥ 1e6)),
      if_neg (by norm_num : ¬ ((500 : ℚ) ≥ 1000))]
    have h : roundHalfEven ((500 : ℚ) * 10 ^ 0) = 500 := by norm_num [roundHalfEven]
    simp only [formatFixed, h]
    decide
  · have h0 : (1.5 * AU_KM) / AU_KM = 3/2 := by norm_num [AU_KM]
    simp only [formatDist, if_pos rfl, h0]
    have hne : ¬ ((3/2 : ℚ) = 0) := by norm_num
    have hneg : ¬ ((3/2 : ℚ) < 0) := by norm_num
    rw [formatG3, if_neg hne, if_neg hneg]
    have hfl : (⌊(3/2 : ℚ)⌋).toNat = 1 := by norm_num
    have hd : decExp (3/2 : ℚ) = 0 := by
      rw [decExp, if_pos (by norm_num : (1:ℚ) ≤ 3/2), hfl]
      decide
    simp only [formatG3Pos, hd]
    have hm : roundHalfEven ((3/2 : ℚ) * (10 : ℚ) ^ ((2 : ℤ) - 0)) = 150 := by
      norm_num [roundHalfEven]
    rw [hm]
    decide

/-- Witness for C6: the thousands branch applied at a concrete input. -/
theorem claim_C6_witness :
    formatDist 2000000 false = formatFixed ((2000000 : ℚ) / 1e6) 2 ++ " Mkm" :=
  claim_C6.2.1 2000000 (by norm_num)

/-- Claim C5: the small-scale selector keeps exactly the references
strictly smaller resp. strictly larger than the horizon, draws the closest
smaller body and the two closest larger bodies in ascending order, and at
`R = 5000` km (near-Sun branch) selects exactly Moon and Earth, with no
second larger body. -/
theorem claim_C5 :
    (∀ (R : ℚ) (u : Bool),
      (∀ p ∈ smallSmaller R u, (p.1, p.2 * scaleOf u) ∈ smallRefs R ∧ p.2 * scaleOf u < R) ∧
      (∀ q ∈ smallRefs R, q.2 < R → (q.1, q.2 / scaleOf u) ∈ smallSmaller R u) ∧
      (∀ p ∈ (smallSmaller R u).take 1, ∀ q ∈ smallRefs R, q.2 < R → q.2 ≤ p.2 * scaleOf u) ∧
      (∀ p ∈ smallLarger R u, (p.1, p.2 * scaleOf u) ∈ smallRefs R ∧ R < p.2 * scaleOf u) ∧
      (∀ q ∈ smallRefs R, R < q.2 → (q.1, q.2 / scaleOf u) ∈ smallLarger R u) ∧
      ((smallLarger R u).take 2).Sorted byRadAsc ∧
      (∀ p ∈ (smallLarger R u).take 2, ∀ q ∈ smallLarger R u,
        q ∉ (smallLarger R u).take 2 → p.2 ≤ q.2) ∧
      smallToDraw R u = (smallSmaller R u).take 1 ++ (smallLarger R u).take 2) ∧
    smallRefs 5000 = smallRefsNear ∧
    smallToDraw 5000 false = [("Moon (Earth's moon)", 1738), ("Earth (radius)", 6371)] ∧
    (smallLarger 5000 false).take 2 = [("Earth (radius)", 6371)] := by
  refine ⟨fun R u => ⟨?_, fun q hq h => smallSmaller_complete u hq h, ?_, ?_,
      fun q hq h => smallLarger_complete u hq h, ?_, ?_, rfl⟩, ?_, ?_, ?_⟩
  · intro p hp
    rcases smallSmaller_sound hp with ⟨q, hq, hlt, rfl⟩
    rw [div_mul_cancel₀ _ (scaleOf_ne_zero u)]
    exact ⟨hq, hlt⟩
  · intro p hp q hq hlt
    rcases mem_take_one hp with ⟨t, ht⟩
    have hmem : (q.1, q.2 / scaleOf u) ∈ smallSmaller R u := smallSmaller_complete u hq hlt
    have hsorted := smallSmaller_sorted R u
    rw [ht] at hmem hsorted
    have hle : q.2 / scaleOf u ≤ p.2 := by
      rcases List.mem_cons.1 hmem with h | h
      · rw [show q.2 / scaleOf u = p.2 from congrArg Prod.snd h]
      · exact (List.sorted_cons.1 hsorted).1 _ h
    calc q.2 = q.2 / scaleOf u * scaleOf u := by
            rw [div_mul_cancel₀ _ (scaleOf_ne_zero u)]
      _ ≤ p.2 * scaleOf u := by
            exact mul_le_mul_of_nonneg_right hle (le_of_lt (scaleOf_pos u))
  · intro p hp
    rcases smallLarger_sound hp with ⟨q, hq, hlt, rfl⟩
    rw [div_mul_cancel₀ _ (scaleOf_ne_zero u)]
    exact ⟨hq, hlt⟩
  · exact (smallLarger_sorted R u).sublist (List.take_sublist 2 _)
  · exact fun p hp q hq hqn => sorted_take_rest (smallLarger_sorted R u) 2 p hp q hq hqn
  · rw [smallRefs, if_pos (by norm_num [SUN_MIN_FRACTION, SUN_RADIUS_KM])]
  · norm_num [smallToDraw, smallSmaller, smallLarger, smallRefs, smallRefsNear,
      SUN_MIN_FRACTION, SUN_RADIUS_KM, EROS_RADIUS_KM, NEUTRON_STAR_RADIUS_KM,
      ENCELADUS_RADIUS_KM, VESTA_RADIUS_KM, CERES_RADIUS_KM, MOON_RADIUS_KM,
      EARTH_RADIUS_KM, scaleOf, List.filter, List.insertionSort, List.orderedInsert,
      byRadAsc, byRadDesc]
  · norm_num [smallLarger, smallRefs, smallRefsNear,
      SUN_MIN_FRACTION, SUN_RADIUS_KM, EROS_RADIUS_KM, NEUTRON_STAR_RADIUS_KM,
      ENCELADUS_RADIUS_KM, VESTA_RADIUS_KM, CERES_RADIUS_KM, MOON_RADIUS_KM,
      EARTH_RADIUS_KM, scaleOf, List.filter, List.insertionSort, List.orderedInsert,
      byRadAsc]

/-- Witness for C5: the Moon entry is in the smaller list at `R = 5000`. -/
theorem claim_C5_witness :
    ("Moon (Earth's moon)", (1738 : ℚ) / scaleOf false) ∈ smallSmaller 5000 false := by
  have hmem : ("Moon (Earth's moon)", MOON_RADIUS_KM) ∈ smallRefs 5000 := by
    rw [smallRefs, if_pos (by norm_num [SUN_MIN_FRACTION, SUN_RADIUS_KM])]
    simp [smallRefsNear]
  exact (claim_C5.1 5000 false).2.1 ("Moon (Earth's moon)", MOON_RADIUS_KM) hmem
    (by norm_num [MOON_RADIUS_KM])

/-- Claim C8: a reference body whose radius equals the horizon radius is
excluded from both filtered lists (strict comparisons), so it is never
drawn. -/
theorem claim_C8 :
    ∀ (R : ℚ) (u : Bool) (p : String × ℚ), p ∈ smallRefs R → p.2 = R →
      ((p.1, p.2 / scaleOf u) ∉ smallSmaller R u ∧ (p.1, p.2 / scaleOf u) ∉ smallLarger R u) ∧
      ∀ q ∈ smallToDraw R u, q.2 * scaleOf u ≠ R := by
  intro R u p _ hpR
  have hdiv : ∀ a b : ℚ, a / scaleOf u = b / scaleOf u → a = b := by
    intro a b h
    have := congrArg (fun x => x * scaleOf u) h
    simpa [div_mul_cancel₀, scaleOf_ne_zero u] using this
  refine ⟨⟨?_, ?_⟩, ?_⟩
  · intro hmem
    rcases smallSmaller_sound hmem with ⟨q, _, hlt, heq⟩
    have : p.2 = q.2 := hdiv _ _ (congrArg Prod.snd heq)
    rw [← this, hpR] at hlt
    exact lt_irrefl R hlt
  · intro hmem
    rcases smallLarger_sound hmem with ⟨q, _, hlt, heq⟩
    have : p.2 = q.2 := hdiv _ _ (congrArg Prod.snd heq)
    rw [← this, hpR] at hlt
    exact lt_irrefl R hlt
  · intro q hq
    rcases List.mem_append.1 hq with h | h
    · rcases smallSmaller_sound (List.mem_of_mem_take h) with ⟨s, _, hlt, rfl⟩
      rw [div_mul_cancel₀ _ (scaleOf_ne_zero u)]
      exact ne_of_lt hlt
    · rcases smallLarger_sound (List.mem_of_mem_take h) with ⟨s, _, hlt, rfl⟩
      rw [div_mul_cancel₀ _ (scaleOf_ne_zero u)]
      exact ne_of_gt hlt

/-- Witness for C8 in the near-Sun branch with the Moon exactly at the
horizon radius. -/
theorem claim_C8_witness :
    ("Moon (Earth's moon)", (1738 : ℚ) / scaleOf false) ∉ smallSmaller 1738 false := by
  have h := claim_C8 1738 false ("Moon (Earth's moon)", MOON_RADIUS_KM)
    (by rw [smallRefs, if_pos (by norm_num [SUN_MIN_FRACTION, SUN_RADIUS_KM])]
        simp [smallRefsNear])
    (by norm_num [MOON_RADIUS_KM])
  exact h.1.1

/-- Claim C9: the recompute-and-render pass is total: for every horizon
radius the small-scale selection is non-empty, so the `max` over drawn
radii (which raises on an empty sequence in Python) is always defined. -/
theorem claim_C9 :
    ∀ (R : ℚ) (u : Bool),
      smallToDraw R u ≠ [] ∧ (smallMaxDrawnKm R u).isSome ∧ (smallLim R u).isSome := by
  intro R u
  have hnonempty : smallToDraw R u ≠ [] := by
    by_cases hbig : ∃ q ∈ smallRefs R, R < q.2
    · rcases hbig with ⟨q, hq, h⟩
      have hmem := smallLarger_complete u hq h
      have hlen : 0 < (smallLarger R u).length :=
        List.length_pos.2 (List.ne_nil_of_mem hmem)
      have : 0 < (smallToDraw R u).length := by
        simp only [smallToDraw, List.length_append, List.length_take]
        omega
      exact List.length_pos.1 this
    · push_neg at hbig
      have hsm : ∃ q ∈ smallRefs R, q.2 < R := by
        by_cases hnear : R < SUN_MIN_FRACTION * SUN_RADIUS_KM
        · have hEarth : ("Earth (radius)", EARTH_RADIUS_KM) ∈ smallRefs R := by
            rw [smallRefs, if_pos hnear]; simp [smallRefsNear]
          have hMoon : ("Moon (Earth's moon)", MOON_RADIUS_KM) ∈ smallRefs R := by
            rw [smallRefs, if_pos hnear]; simp [smallRefsNear]
          have h1 := hbig _ hEarth
          exact ⟨_, hMoon, by
            norm_num [MOON_RADIUS_KM]
            norm_num [EARTH_RADIUS_KM] at h1
            linarith⟩
        · have hSun : ("Sun (radius)", SUN_RADIUS_KM) ∈ smallRefs R := by
            rw [smallRefs, if_neg hnear]; simp [smallRefsFar]
          have hJup : ("Jupiter (radius)", JUPITER_RADIUS_KM) ∈ smallRefs R := by
            rw [smallRefs, if_neg hnear]; simp [smallRefsFar]
          have h1 := hbig _ hSun
          exact ⟨_, hJup, by
            norm_num [JUPITER_RADIUS_KM]
            norm_num [SUN_RADIUS_KM] at h1
            linarith⟩
      rcases hsm with ⟨q, hq, h⟩
      have hmem := smallSmaller_complete u hq h
      have hlen : 0 < (smallSmaller R u).length :=
        List.length_pos.2 (List.ne_nil_of_mem hmem)
      have : 0 < (smallToDraw R u).length := by
        simp only [smallToDraw, List.length_append, List.length_take]
        omega
      exact List.length_pos.1 this
  have hmax : (smallMaxDrawnKm R u).isSome := by
    rw [smallMaxDrawnKm]
    cases hdraw : smallToDraw R u with
    | nil => exact absurd hdraw hnonempty
    | cons a t => simp [List.max?]
  refine ⟨hnonempty, hmax, ?_⟩
  rw [smallLim]
  rcases Option.isSome_iff_exists.1 hmax with ⟨m, hm⟩
  rw [hm]
  rfl

/-- Witness for C9 at the default slider position radius. -/
theorem claim_C9_witness :
    smallToDraw 5000 false ≠ [] ∧ (smallLim 5000 false).isSome :=
  ⟨(claim_C9 5000 false).1, (claim_C9 5000 false).2.2⟩

/-- Claim C10: whenever the large-scale renderer is reached from `main`
(radius at least half of Mercury's orbit), the unit flag is AU, because the
mode threshold strictly exceeds the unit-switch threshold; hence the
Sun-radius fallback (which needs km mode) is unreachable from the main
flow. -/
theorem claim_C10 :
    AU_SWITCH_KM < HALF_MERCURY_ORBIT_KM ∧
    ∀ R : ℚ, HALF_MERCURY_ORBIT_KM ≤ R →
      useAu R = true ∧
      largeSmallerFB R (useAu R) = largeSmaller R (useAu R) ∧
      ∀ p, largeSmallerFB R (useAu R) = some p → p.1 ≠ "Sun (radius)" := by
  have hthr : AU_SWITCH_KM < HALF_MERCURY_ORBIT_KM := by
    norm_num [AU_SWITCH_KM, HALF_MERCURY_ORBIT_KM, AU_KM]
  refine ⟨hthr, fun R hR => ?_⟩
  have hau : useAu R = true := by
    simp only [useAu, decide_eq_true_eq]
    linarith
  have hfb : largeSmallerFB R (useAu R) = largeSmaller R (useAu R) := by
    rw [hau]
    cases h : largeSmaller R true with
    | some p => simp [largeSmallerFB, h]
    | none => simp [largeSmallerFB, h]
  refine ⟨hau, hfb, fun p hp => ?_⟩
  rw [hfb, hau, largeSmaller_eq] at hp
  rcases selFold_mem _ none with hacc | ⟨q, hq, _, hres⟩
  · rw [hp] at hacc
    exact absurd hacc (by simp)
  · rw [hp] at hres
    rcases List.mem_map.1 hq with ⟨o, ho, rfl⟩
    have hpq : (o.1, o.2 / scaleOf true) = p := (Option.some.inj hres).symm
    rw [← hpq]
    exact ORBITS_not_sun o ho

/-- Witness for C10 at a radius on the mode boundary. -/
theorem claim_C10_witness :
    useAu HALF_MERCURY_ORBIT_KM = true ∧
    largeSmallerFB HALF_MERCURY_ORBIT_KM (useAu HALF_MERCURY_ORBIT_KM) =
      largeSmaller HALF_MERCURY_ORBIT_KM (useAu HALF_MERCURY_ORBIT_KM) :=
  ⟨(claim_C10.2 HALF_MERCURY_ORBIT_KM le_rfl).1,
   (claim_C10.2 HALF_MERCURY_ORBIT_KM le_rfl).2.1⟩

theorem lim_bounds_aux (L : List (String × ℚ)) (hpos : ∀ p ∈ L, 0 ≤ p.2)
    (i1 i2 : ℚ) (h21 : i2 ≤ i1) (h12 : i1 ≤ 1.2 * i2) :
    L.foldl (fun m p => max m p.2) i2 ≤ L.foldl (fun m p => max m (p.2 * 1.1)) i1 ∧
    L.foldl (fun m p => max m (p.2 * 1.1)) i1 ≤
      1.2 * L.foldl (fun m p => max m p.2) i2 := by
  constructor
  · apply foldl_max_le_of
    · exact le_trans h21 (foldl_max_init_le _ L i1)
    · intro q hq
      calc q.2 ≤ q.2 * 1.1 := by nlinarith [hpos q hq]
        _ ≤ _ := foldl_max_mem_le _ L i1 q hq
  · apply foldl_max_le_of
    · calc i1 ≤ 1.2 * i2 := h12
        _ ≤ _ := by nlinarith [foldl_max_init_le (fun p : String × ℚ => p.2) L i2]
    · intro q hq
      calc q.2 * 1.1 ≤ 1.2 * q.2 := by nlinarith [hpos q hq]
        _ ≤ _ := by nlinarith [foldl_max_mem_le (fun p : String × ℚ => p.2) L i2 q hq]

theorem largeLarger_nonneg {R : ℚ} {u : Bool} (hR : 0 < R) :
    ∀ p ∈ largeLarger R u, 0 ≤ p.2 := by
  intro p hp
  have hRs : 0 < R / scaleOf u := div_pos hR (scaleOf_pos u)
  by_cases hc :
      (List.insertionSort byRadAsc
        ((ORBITS_KM.map (fun p => (p.1, p.2 / scaleOf u))).filter
          (fun p => R / scaleOf u < p.2))).take 2 = [] ∧ 0 < R / scaleOf u
  · simp only [largeLarger, if_pos hc, List.mem_singleton] at hp
    rw [hp]
    nlinarith
  · simp only [largeLarger, if_neg hc] at hp
    have := List.mem_filter.1 ((List.mem_insertionSort _).1 (List.mem_of_mem_take hp))
    have hlt : R / scaleOf u < p.2 := by simpa using this.2
    linarith

theorem largeSmallerFB_nonneg {R : ℚ} {u : Bool} :
    ∀ p, largeSmallerFB R u = some p → 0 ≤ p.2 := by
  intro p hp
  cases h : largeSmaller R u with
  | some q =>
    rw [largeSmallerFB, h] at hp
    have hq : q = p := Option.some.inj hp
    rw [largeSmaller_eq] at h
    rcases selFold_mem _ none with hacc | ⟨x, hx, _, hres⟩
    · rw [h] at hacc
      exact absurd hacc (by simp)
    · rw [h] at hres
      have hxq : x = q := (Option.some.inj hres).symm
      rcases List.mem_map.1 hx with ⟨o, ho, rfl⟩
      rw [← hq, ← hxq]
      exact div_nonneg (le_of_lt (ORBITS_pos o ho)) (le_of_lt (scaleOf_pos u))
  | none =>
    rw [largeSmallerFB, h] at hp
    cases u with
    | true => simp at hp
    | false =>
      simp only [if_neg (by decide : ¬ (false = true))] at hp
      rw [← Option.some.inj hp]
      norm_num [SUN_RADIUS_KM, scaleOf]

/-- Claim C7 (amended): in both render modes, the computed axis half-width
lies between 1.05 and 1.26 times the largest radius actually drawn (the
large-scale plotter exceeds 1.25 when the nearest larger orbit is close to
the horizon; the small-scale plotter uses exactly 1.25). -/
theorem claim_C7 :
    ∀ (R : ℚ) (u : Bool), 0 < R →
      (1.05 * largeMaxDrawn R u ≤ largeLim R u ∧
       largeLim R u ≤ 1.26 * largeMaxDrawn R u) ∧
      (∀ m, smallMaxDrawnKm R u = some m →
        smallLim R u = some (1.25 * max (R / scaleOf u) (m / scaleOf u)) ∧
        (∀ p ∈ smallToDraw R u, p.2 ≤ m / scaleOf u) ∧
        (∃ p ∈ smallToDraw R u, p.2 = m / scaleOf u) ∧
        1.05 * max (R / scaleOf u) (m / scaleOf u) ≤
          1.25 * max (R / scaleOf u) (m / scaleOf u) ∧
        1.25 * max (R / scaleOf u) (m / scaleOf u) ≤
          1.26 * max (R / scaleOf u) (m / scaleOf u)) := by
  intro R u hR
  have hspos := scaleOf_pos u
  have hRs : 0 < R / scaleOf u := div_pos hR hspos
  have hLpos := largeLarger_nonneg (u := u) hR
  constructor
  · cases hFB : largeSmallerFB R u with
    | none =>
      have h := lim_bounds_aux (largeLarger R u) hLpos
        (R / scaleOf u * 1.2) (R / scaleOf u) (by linarith) (by linarith)
      simp only [largeLim, largeMaxDrawn, hFB]
      exact ⟨by nlinarith [h.1], by nlinarith [h.2]⟩
    | some p =>
      have hp2 : 0 ≤ p.2 := largeSmallerFB_nonneg p hFB
      have h := lim_bounds_aux (largeLarger R u) hLpos
        (max (R / scaleOf u * 1.2) (p.2 * 1.1)) (max (R / scaleOf u) p.2)
        (max_le_max (by linarith) (by linarith))
        (max_le (by
            calc R / scaleOf u * 1.2 = 1.2 * (R / scaleOf u) := by ring
              _ ≤ 1.2 * max (R / scaleOf u) p.2 := by
                  nlinarith [le_max_left (R / scaleOf u) p.2])
          (by
            calc p.2 * 1.1 ≤ 1.2 * p.2 := by nlinarith
              _ ≤ 1.2 * max (R / scaleOf u) p.2 := by
                  nlinarith [le_max_right (R / scaleOf u) p.2]))
      simp only [largeLim, largeMaxDrawn, hFB]
      exact ⟨by nlinarith [h.1], by nlinarith [h.2]⟩
  · intro m hm
    have hmax : max R m / scaleOf u = max (R / scaleOf u) (m / scaleOf u) := by
      rcases max_cases R m with ⟨h1, h2⟩ | ⟨h1, h2⟩
      · rw [h1, max_eq_left ((div_scale_le_iff u).2 h2)]
      · rw [h1, max_eq_right ((div_scale_le_iff u).2 (le_of_lt h2))]
    have hx : 0 < max (R / scaleOf u) (m / scaleOf u) :=
      lt_of_lt_of_le hRs (le_max_left _ _)
    refine ⟨?_, ?_, ?_, by nlinarith, by nlinarith⟩
    · rw [smallLim, hm]
      show some (max R m * 1.25 / scaleOf u) =
        some (1.25 * max (R / scaleOf u) (m / scaleOf u))
      congr 1
      rw [← hmax]
      ring
    · intro p hp
      have hle : ∀ b ∈ (smallToDraw R u).map (fun p => p.2 * scaleOf u), b ≤ m :=
        (List.max?_le_iff (fun _ _ _ => max_le_iff) hm).1 (le_refl m)
      have := hle (p.2 * scaleOf u) (List.mem_map_of_mem _ hp)
      rw [le_div_iff₀ hspos]
      exact this
    · have hmem : m ∈ (smallToDraw R u).map (fun p => p.2 * scaleOf u) :=
        List.max?_mem (fun a b => max_choice a b) hm
      rcases List.mem_map.1 hmem with ⟨p, hp, hpm⟩
      exact ⟨p, hp, by rw [eq_div_iff (ne_of_gt hspos)]; exact hpm⟩

/-- Witness for C7 at radius 1 km in km mode. -/
theorem claim_C7_witness :
    1.05 * largeMaxDrawn 1 false ≤ largeLim 1 false ∧
    largeLim 1 false ≤ 1.26 * largeMaxDrawn 1 false :=
  (claim_C7 1 false (by norm_num)).1

/-- Counterexample to C7 as stated: at a horizon radius of 67.8 AU (large
mode, AU units) the axis limit strictly exceeds 1.25 times the largest
drawn radius (Eris, the only larger orbit, is too close to the horizon). -/
theorem claim_C7_counterexample :
    1.25 * largeMaxDrawn (67.8 * AU_KM) true < largeLim (67.8 * AU_KM) true := by
  norm_num [largeLim, largeMaxDrawn, largeLarger, largeSmallerFB, largeSmaller,
    ORBITS_KM, AU_KM, scaleOf, List.filter, List.insertionSort, List.orderedInsert,
    byRadAsc, List.foldl, SUN_RADIUS_KM]

theorem largeSmaller_eq_none_iff (R : ℚ) (u : Bool) :
    largeSmaller R u = none ↔ ∀ q ∈ ORBITS_KM, ¬ q.2 < R := by
  rw [largeSmaller_eq]
  constructor
  · intro h q hq hlt
    rcases selFold_isSome (ORBITS_KM.map (fun p => (p.1, p.2 / scaleOf u)))
        (q.1, q.2 / scaleOf u) (List.mem_map_of_mem _ hq)
        (show (q.1, q.2 / scaleOf u).2 < R / scaleOf u from (div_scale_lt_iff u).2 hlt)
        none with ⟨z, hz⟩
    rw [h] at hz
    exact absurd hz (by simp)
  · intro h
    apply selFold_none
    intro p hp
    rcases List.mem_map.1 hp with ⟨o, ho, rfl⟩
    intro hlt
    exact h o ho ((div_scale_lt_iff u).1 hlt)

theorem largeLarger_eq_top {R : ℚ} {u : Bool} (h : ∃ q ∈ ORBITS_KM, R < q.2) :
    largeLarger R u =
      (List.insertionSort byRadAsc
        ((ORBITS_KM.map (fun p => (p.1, p.2 / scaleOf u))).filter
          (fun p => R / scaleOf u < p.2))).take 2 := by
  rcases h with ⟨q, hq, hlt⟩
  have hmem : (q.1, q.2 / scaleOf u) ∈
      (ORBITS_KM.map (fun p => (p.1, p.2 / scaleOf u))).filter
        (fun p => R / scaleOf u < p.2) :=
    List.mem_filter.2 ⟨List.mem_map_of_mem _ hq, by
      simpa using (div_scale_lt_iff u).2 hlt⟩
  have hsort := (List.mem_insertionSort byRadAsc).2 hmem
  have hlen : 0 < (List.insertionSort byRadAsc
      ((ORBITS_KM.map (fun p => (p.1, p.2 / scaleOf u))).filter
        (fun p => R / scaleOf u < p.2))).length :=
    List.length_pos.2 (List.ne_nil_of_mem hsort)
  have htake : (List.insertionSort byRadAsc
      ((ORBITS_KM.map (fun p => (p.1, p.2 / scaleOf u))).filter
        (fun p => R / scaleOf u < p.2))).take 2 ≠ [] := by
    apply List.length_pos.1
    rw [List.length_take]
    omega
  simp only [largeLarger]
  rw [if_neg (fun hc => htake hc.1)]

/-- Claim C4: the large-scale selector picks the single largest orbit
strictly below the horizon (Sun-radius fallback only with no orbit below
and km units), and the two smallest orbits strictly above, ascending
(synthetic `1.2 ×` marker when none is above); for every radius strictly
between the orbits of Earth and Mars it picks Earth below and Mars then
Ceres above. -/
theorem claim_C4 :
    ∀ (u : Bool) (R : ℚ),
      (∀ p, largeSmaller R u = some p →
        (p.1, p.2 * scaleOf u) ∈ ORBITS_KM ∧ p.2 * scaleOf u < R ∧
        ∀ q ∈ ORBITS_KM, q.2 < R → q.2 ≤ p.2 * scaleOf u) ∧
      (largeSmaller R u = none ↔ ∀ q ∈ ORBITS_KM, ¬ q.2 < R) ∧
      ((∀ q ∈ ORBITS_KM, ¬ q.2 < R) →
        largeSmallerFB R false = some ("Sun (radius)", SUN_RADIUS_KM) ∧
        largeSmallerFB R true = none) ∧
      (∀ p, largeSmaller R u = some p → largeSmallerFB R u = some p) ∧
      ((∃ q ∈ ORBITS_KM, R < q.2) →
        (∀ p ∈ largeLarger R u, (p.1, p.2 * scaleOf u) ∈ ORBITS_KM ∧ R < p.2 * scaleOf u) ∧
        (largeLarger R u).Sorted byRadAsc ∧
        (∀ q ∈ ORBITS_KM, R < q.2 → (q.1, q.2 / scaleOf u) ∉ largeLarger R u →
          ∀ p ∈ largeLarger R u, p.2 ≤ q.2 / scaleOf u)) ∧
      ((∀ q ∈ ORBITS_KM, ¬ R < q.2) → 0 < R →
        largeLarger R u = [("1.2 × R_s (scale)", R / scaleOf u * 1.2)]) ∧
      (1.0 * AU_KM < R → R < 1.524 * AU_KM →
        largeSmallerFB R u = some ("Earth", 1.0 * AU_KM / scaleOf u) ∧
        largeLarger R u = [("Mars", 1.524 * AU_KM / scaleOf u),
                           ("Ceres", 2.766 * AU_KM / scaleOf u)]) := by
  intro u R
  have hspos := scaleOf_pos u
  have hAU : (0 : ℚ) < AU_KM := by norm_num [AU_KM]
  refine ⟨?_, largeSmaller_eq_none_iff R u, ?_, ?_, ?_, ?_, ?_⟩
  · -- the selected smaller body is the largest orbit strictly below R
    intro p hp
    rw [largeSmaller_eq] at hp
    rcases selFold_mem (ORBITS_KM.map (fun p => (p.1, p.2 / scaleOf u))) none with
      hacc | ⟨q, hq, hqlt, hres⟩
    · rw [hp] at hacc
      exact absurd hacc (by simp)
    · have hqp : q = p := by rw [hp] at hres; exact (Option.some.inj hres).symm
      subst hqp
      rcases List.mem_map.1 hq with ⟨o, ho, rfl⟩
      refine ⟨?_, ?_, ?_⟩
      · simpa [div_mul_cancel₀ _ (scaleOf_ne_zero u)] using ho
      · have : o.2 < R := (div_scale_lt_iff u).1 hqlt
        simpa [div_mul_cancel₀ _ (scaleOf_ne_zero u)] using this
      · intro q' hq' hlt'
        have hle := selFold_max_of_some _ (mappedOrbits_pairwise u) _ hp
          (q'.1, q'.2 / scaleOf u) (List.mem_map_of_mem _ hq')
          (show (q'.1, q'.2 / scaleOf u).2 < R / scaleOf u from (div_scale_lt_iff u).2 hlt')
        exact (div_le_iff₀ hspos).1 hle
  · -- Sun fallback exactly when no orbit is below and units are km
    intro hno
    have h1 : largeSmaller R false = none := (largeSmaller_eq_none_iff R false).2 hno
    have h2 : largeSmaller R true = none := (largeSmaller_eq_none_iff R true).2 hno
    constructor
    · rw [largeSmallerFB, h1]
      simp [scaleOf]
    · rw [largeSmallerFB, h2]
      simp
  · intro p hp
    simp [largeSmallerFB, hp]
  · -- the larger bodies: orbits above R, ascending, the two smallest
    intro hex
    have heq := largeLarger_eq_top (u := u) hex
    refine ⟨?_, ?_, ?_⟩
    · intro p hp
      rw [heq] at hp
      have hm := List.mem_filter.1 ((List.mem_insertionSort _).1 (List.mem_of_mem_take hp))
      rcases List.mem_map.1 hm.1 with ⟨o, ho, rfl⟩
      have hlt : R / scaleOf u < o.2 / scaleOf u := by simpa using hm.2
      constructor
      · simpa [div_mul_cancel₀ _ (scaleOf_ne_zero u)] using ho
      · have : R < o.2 := (div_scale_lt_iff u).1 hlt
        simpa [div_mul_cancel₀ _ (scaleOf_ne_zero u)] using this
    · rw [heq]
      exact (List.sorted_insertionSort byRadAsc _).sublist (List.take_sublist 2 _)
    · intro q hq hlt hnot p hp
      rw [heq] at hnot hp
      have hmem : (q.1, q.2 / scaleOf u) ∈ List.insertionSort byRadAsc
          ((ORBITS_KM.map (fun p => (p.1, p.2 / scaleOf u))).filter
            (fun p => R / scaleOf u < p.2)) :=
        (List.mem_insertionSort _).2 (List.mem_filter.2
          ⟨List.mem_map_of_mem _ hq, by simpa using (div_scale_lt_iff u).2 hlt⟩)
      exact sorted_take_rest (List.sorted_insertionSort byRadAsc _) 2 p hp _ hmem hnot
  · -- synthetic fallback when no orbit is above
    intro hno hpos
    have hfilter : (ORBITS_KM.map (fun p => (p.1, p.2 / scaleOf u))).filter
        (fun p => R / scaleOf u < p.2) = [] := by
      rw [List.filter_eq_nil_iff]
      intro p hp
      rcases List.mem_map.1 hp with ⟨o, ho, rfl⟩
      simp only [decide_eq_true_eq]
      intro hlt
      exact hno o ho ((div_scale_lt_iff u).1 hlt)
    have h0 : 0 < R / scaleOf u := div_pos hpos hspos
    simp [largeLarger, hfilter, h0, List.insertionSort]
  · -- strictly between the orbits of Earth and Mars
    intro hE hM
    have hsm : largeSmaller R u = some ("Earth", 1.0 * AU_KM / scaleOf u) := by
      rw [largeSmaller_eq]
      apply selFold_max _ (mappedOrbits_pairwise u)
      · exact List.mem_map_of_mem _
          (show ("Earth", 1.0 * AU_KM) ∈ ORBITS_KM by simp [ORBITS_KM])
      · show (1.0 * AU_KM) / scaleOf u < R / scaleOf u
        exact (div_scale_lt_iff u).2 hE
      · intro q hq hlt
        rcases List.mem_map.1 hq with ⟨o, ho, rfl⟩
        have hlt' : o.2 < R := (div_scale_lt_iff u).1 hlt
        show o.2 / scaleOf u ≤ (1.0 * AU_KM) / scaleOf u
        apply (div_scale_le_iff u).2
        simp only [ORBITS_KM, List.mem_cons, List.not_mem_nil, or_false] at ho
        rcases ho with rfl|rfl|rfl|rfl|rfl|rfl|rfl|rfl|rfl|rfl|rfl|rfl <;>
          norm_num [AU_KM] at hlt' hM ⊢ <;> linarith
    have hfilter : (ORBITS_KM.map (fun p => (p.1, p.2 / scaleOf u))).filter
        (fun p => R / scaleOf u < p.2) =
        [("Mars", 1.524 * AU_KM / scaleOf u), ("Ceres", 2.766 * AU_KM / scaleOf u),
         ("Jupiter", 5.203 * AU_KM / scaleOf u), ("Saturn", 9.537 * AU_KM / scaleOf u),
         ("Uranus", 19.19 * AU_KM / scaleOf u), ("Neptune", 30.07 * AU_KM / scaleOf u),
         ("Pluto", 39.48 * AU_KM / scaleOf u), ("Makemake", 45.43 * AU_KM / scaleOf u),
         ("Eris", 67.86 * AU_KM / scaleOf u)] := by
      simp only [ORBITS_KM, List.map_cons, List.map_nil, List.filter_cons, List.filter_nil,
        decide_eq_true_eq, div_scale_lt_iff u]
      rw [if_neg (by intro h; linarith), if_neg (by intro h; linarith),
        if_neg (by intro h; linarith), if_pos (by linarith), if_pos (by linarith),
        if_pos (by linarith), if_pos (by linarith), if_pos (by linarith),
        if_pos (by linarith), if_pos (by linarith), if_pos (by linarith),
        if_pos (by linarith)]
    have hsorted : List.Sorted byRadAsc
        [("Mars", 1.524 * AU_KM / scaleOf u), ("Ceres", 2.766 * AU_KM / scaleOf u),
         ("Jupiter", 5.203 * AU_KM / scaleOf u), ("Saturn", 9.537 * AU_KM / scaleOf u),
         ("Uranus", 19.19 * AU_KM / scaleOf u), ("Neptune", 30.07 * AU_KM / scaleOf u),
         ("Pluto", 39.48 * AU_KM / scaleOf u), ("Makemake", 45.43 * AU_KM / scaleOf u),
         ("Eris", 67.86 * AU_KM / scaleOf u)] := by
      simp only [List.sorted_cons, List.mem_cons, List.mem_singleton, List.sorted_nil,
        List.not_mem_nil, byRadAsc, div_scale_le_iff u]
      norm_num [AU_KM]
      simp only [div_scale_le_iff u]
      norm_num
    constructor
    · simp [largeSmallerFB, hsm]
    · rw [largeLarger_eq_top ⟨("Mars", 1.524 * AU_KM), by simp [ORBITS_KM], hM⟩,
        hfilter, hsorted.insertionSort_eq]
      rfl

/-- Witness for C4 at a radius of 1.2 AU in AU units. -/
theorem claim_C4_witness :
    largeSmallerFB (1.2 * AU_KM) true = some ("Earth", 1.0 * AU_KM / scaleOf true) ∧
    largeLarger (1.2 * AU_KM) true =
      [("Mars", 1.524 * AU_KM / scaleOf true), ("Ceres", 2.766 * AU_KM / scaleOf true)] :=
  (claim_C4 true (1.2 * AU_KM)).2.2.2.2.2.2
    (by norm_num [AU_KM]) (by norm_num [AU_KM])

end AstroMe
